import Mathlib

/-!
Verification of the consensus-selection and caching core of the oracle
cache service (file `packages/cache-service/src/data-packages/data-packages.service.ts`).

The persisted documents, the two Mongo aggregation strategies
(`getDataPackagesFromDbByTimestampOrLatest` and
`getLatestDataPackagesFromDbWithSameTimestamp`), the statistics query, the
normalization of received packages and the signature-validity flag are
embedded as executable Lean functions over explicit lists of stored
documents.  The store is modelled as a `List CachedDataPackage` in the
store's document order: the Mongo `$match` stage is a filter, `$group`
with `$first` accumulators keeps the first document of each group in
pipeline order, `$group` with `$push` accumulators collects all documents
of a group in pipeline order, and `$sort` after `$group` orders the group
records.  `Date.now()` and `config` values are passed explicitly.
-/

/-- One reported data point, `{ dataFeedId, value }`; the value payload is opaque. -/
structure DataPoint where
  dataFeedId : String
  value : String
deriving DecidableEq

/-- A persisted data-package document (`CachedDataPackage` in
`data-packages.model.ts`): the received fields plus provenance stamped at
ingestion time. -/
structure CachedDataPackage where
  timestampMilliseconds : Nat
  signature : String
  isSignatureValid : Bool
  dataPoints : List DataPoint
  dataServiceId : String
  dataFeedId : String
  signerAddress : String
deriving DecidableEq

/-- `DataPackagesResponse`: a JavaScript object mapping feed id to the
sequence of packages for that feed, modelled as an association list in key
insertion order. -/
abbrev DataPackagesResponse := List (String × List CachedDataPackage)

/-- Error codes of the thrown exceptions: the distinct
`EMPTY_DATA_PACKAGE_RESPONSE_ERROR_CODE` of the empty-response
`HttpException`, and the code of `BadRequestException`. -/
inductive ErrorCode where
  | emptyDataPackageResponse
  | badRequest
deriving DecidableEq

/-- A thrown exception: message and error code. -/
structure HttpError where
  message : String
  code : ErrorCode
deriving DecidableEq

instance {E A : Type} [DecidableEq E] [DecidableEq A] : DecidableEq (Except E A) := fun x y =>
  match x, y with
  | .ok a, .ok b =>
    if h : a = b then isTrue (by rw [h]) else isFalse (fun hc => by cases hc; exact h rfl)
  | .error a, .error b =>
    if h : a = b then isTrue (by rw [h]) else isFalse (fun hc => by cases hc; exact h rfl)
  | .ok _, .error _ => isFalse (fun hc => by cases hc)
  | .error _, .ok _ => isFalse (fun hc => by cases hc)

/-- Lookup of `obj[k]` in an association list modelling a JavaScript
object; `none` models `undefined`. -/
def lookupKey {V : Type} (k : String) : List (String × V) → Option V
  | [] => none
  | (k1, v) :: rest => if k1 = k then some v else lookupKey k rest

/-- JavaScript object assignment `obj[k] = v`: replaces the value in place
when the key exists, otherwise appends the key. -/
def setKey {V : Type} : List (String × V) → String → V → List (String × V)
  | [], k, v => [(k, v)]
  | (k1, v1) :: rest, k, v =>
    if k1 = k then (k1, v) :: rest else (k1, v1) :: setKey rest k v

/-- JavaScript `delete obj[k]`. -/
def removeKey {V : Type} : List (String × V) → String → List (String × V)
  | [], _ => []
  | (k1, v1) :: rest, k => if k1 = k then rest else (k1, v1) :: removeKey rest k

/-- The body of `fetchedPackagesPerDataFeed[dataFeedId].push(...)` preceded
by `if (!fetchedPackagesPerDataFeed[dataFeedId]) ... = []`: appends the
package to the feed's sequence, creating the key when absent. -/
def pushToFeed (resp : DataPackagesResponse) (f : String) (p : CachedDataPackage) :
    DataPackagesResponse :=
  match resp with
  | [] => [(f, [p])]
  | (k, l) :: rest =>
    if k = f then (k, l ++ [p]) :: rest else (k, l) :: pushToFeed rest f p

/-- Helper for the Mongo `$group` stage with `$first` accumulators: keeps,
for every group key, the first document in pipeline order, skipping
documents whose key was already seen. -/
def firstByKeyAux {A K : Type} [DecidableEq K] (key : A → K) (seen : List K) :
    List A → List A
  | [] => []
  | a :: rest =>
    if key a ∈ seen then firstByKeyAux key seen rest
    else a :: firstByKeyAux key (key a :: seen) rest

/-- The Mongo `$group` stage with `$first` accumulators over every
non-key field: one representative document per distinct key, the first in
pipeline order, group records in order of first key occurrence. -/
def firstByKey {A K : Type} [DecidableEq K] (key : A → K) (l : List A) : List A :=
  firstByKeyAux key [] l

/-- The `timestampMilliseconds` part of the first `$match` stage of
`getDataPackagesFromDbByTimestampOrLatest`:
`timestamp ? new Date(timestamp) : { $gte: new Date(Date.now() - config.maxAllowedTimestampDelay) }`.
JavaScript truthiness makes an explicit timestamp of `0` take the
`$gte` branch. -/
def matchTimestampFilter (timestamp : Option Nat) (now delay : Nat) (ts : Nat) : Bool :=
  match timestamp with
  | some t => if t ≠ 0 then ts == t else decide (now - delay ≤ ts)
  | none => decide (now - delay ≤ ts)

/-- The `$match` stage of `getDataPackagesFromDbByTimestampOrLatest`:
`dataServiceId` equality plus the timestamp filter. -/
def matchByTimestampOrLatest (dataServiceId : String) (timestamp : Option Nat)
    (now delay : Nat) (p : CachedDataPackage) : Bool :=
  p.dataServiceId == dataServiceId &&
    matchTimestampFilter timestamp now delay p.timestampMilliseconds

/-- The `$match` stage of `getLatestDataPackagesFromDbWithSameTimestamp`:
`dataServiceId` equality plus
`timestampMilliseconds: { $gte: new Date(Date.now() - config.maxAllowedTimestampDelay) }`. -/
def matchLatestWindow (dataServiceId : String) (now delay : Nat)
    (p : CachedDataPackage) : Bool :=
  p.dataServiceId == dataServiceId &&
    decide (now - delay ≤ p.timestampMilliseconds)

/-- The `$sort: { timestampMilliseconds: -1 }` ordering of the group
records in `getDataPackagesFromDbByTimestampOrLatest`. -/
def tsDescOrder (a b : CachedDataPackage) : Prop :=
  b.timestampMilliseconds ≤ a.timestampMilliseconds

instance : DecidableRel tsDescOrder := fun a b =>
  inferInstanceAs (Decidable (b.timestampMilliseconds ≤ a.timestampMilliseconds))

/-- The parse loop of `getDataPackagesFromDbByTimestampOrLatest`: pushes
each group record (which carries the first document's fields and the group
key's `dataFeedId`/`signerAddress`, i.e. exactly the kept document) onto
its feed's sequence. -/
def assembleLoop : List CachedDataPackage → DataPackagesResponse → DataPackagesResponse
  | [], resp => resp
  | p :: rest, resp => assembleLoop rest (pushToFeed resp p.dataFeedId p)

/-- The aggregation pipeline of `getDataPackagesFromDbByTimestampOrLatest`:
`$match` by partition and timestamp window, `$group` by
`(signerAddress, dataFeedId)` keeping `$first` fields, `$sort` by
timestamp descending. -/
def byTimestampOrLatestAggregate (db : List CachedDataPackage)
    (dataServiceId : String) (timestamp : Option Nat) (now delay : Nat) :
    List CachedDataPackage :=
  List.insertionSort tsDescOrder
    (firstByKey (fun p => (p.signerAddress, p.dataFeedId))
      (db.filter (matchByTimestampOrLatest dataServiceId timestamp now delay)))

/-- `getDataPackagesFromDbByTimestampOrLatest(dataServiceId, timestamp?)`
over a store `db` in document order: runs the aggregation pipeline, throws
the empty-response `HttpException` when the aggregation result is empty,
otherwise assembles the response per feed id. -/
def getDataPackagesFromDbByTimestampOrLatest (db : List CachedDataPackage)
    (dataServiceId : String) (timestamp : Option Nat) (now delay : Nat) :
    Except HttpError DataPackagesResponse :=
  let sorted := byTimestampOrLatestAggregate db dataServiceId timestamp now delay
  if sorted.length = 0 then
    .error ⟨"Data packages response is empty", .emptyDataPackageResponse⟩
  else
    .ok (assembleLoop sorted [])

/-- A record of the `$group` stage of
`getLatestDataPackagesFromDbWithSameTimestamp`
(`DataPackageDocumentAggregated`): the group key timestamp and the
documents of the group in pipeline order; the `count` and the parallel
`$push` arrays of the source are the length and the field projections of
`members`. -/
structure DataPackageDocumentAggregated where
  timestampMilliseconds : Nat
  members : List CachedDataPackage
deriving DecidableEq

/-- The `count: { $count: {} }` accumulator of the aggregated group. -/
def DataPackageDocumentAggregated.count (g : DataPackageDocumentAggregated) : Nat :=
  g.members.length

/-- The `$group` by exact `timestampMilliseconds` with `$push`
accumulators: one group per distinct timestamp, in order of first
occurrence, each collecting all its documents in pipeline order. -/
def groupByTimestamp (l : List CachedDataPackage) : List DataPackageDocumentAggregated :=
  (firstByKey (fun p => p.timestampMilliseconds) l).map
    (fun p => ⟨p.timestampMilliseconds,
      l.filter (fun q => q.timestampMilliseconds == p.timestampMilliseconds)⟩)

/-- The `$sort: { count: -1, "_id.timestampMilliseconds": -1 }` ordering
of the aggregated groups. -/
def countTsDescOrder (a b : DataPackageDocumentAggregated) : Prop :=
  b.members.length < a.members.length ∨
    (a.members.length = b.members.length ∧
      b.timestampMilliseconds ≤ a.timestampMilliseconds)

instance : DecidableRel countTsDescOrder := fun a b =>
  inferInstanceAs (Decidable (b.members.length < a.members.length ∨
    (a.members.length = b.members.length ∧
      b.timestampMilliseconds ≤ a.timestampMilliseconds)))

instance : IsTotal DataPackageDocumentAggregated countTsDescOrder :=
  ⟨by intro a b; unfold countTsDescOrder; omega⟩

instance : IsTrans DataPackageDocumentAggregated countTsDescOrder :=
  ⟨by intro a b c; unfold countTsDescOrder; omega⟩

/-- The full aggregation pipeline of
`getLatestDataPackagesFromDbWithSameTimestamp`: `$match` by partition and
staleness window, `$group` by exact timestamp, `$sort` by count then
timestamp descending, `$limit: 1`. -/
def aggregateSameTimestamp (db : List CachedDataPackage) (dataServiceId : String)
    (now delay : Nat) : List DataPackageDocumentAggregated :=
  (List.insertionSort countTsDescOrder
    (groupByTimestamp (db.filter (matchLatestWindow dataServiceId now delay)))).take 1

/-- `isSignerAddressAlreadyInDbResponseForDataFeed`: true iff the feed's
sequence is defined and already holds a package from the signer. -/
def isSignerAddressAlreadyInDbResponseForDataFeed (signerAddress : String)
    (fetchedPackagesForDataFeed : Option (List CachedDataPackage)) : Bool :=
  match fetchedPackagesForDataFeed with
  | none => false
  | some pkgs => pkgs.any (fun p => p.signerAddress == signerAddress)

/-- The response entry built at index `i` of the parse loop of
`getLatestDataPackagesFromDbWithSameTimestamp`: the member's pushed
fields, the group key timestamp and the requested `dataServiceId`. -/
def mkCachedFromAggregated (dataServiceId : String) (ts : Nat)
    (m : CachedDataPackage) : CachedDataPackage :=
  { timestampMilliseconds := ts
    signature := m.signature
    isSignatureValid := m.isSignatureValid
    dataPoints := m.dataPoints
    dataServiceId := dataServiceId
    dataFeedId := m.dataFeedId
    signerAddress := m.signerAddress }

/-- The parse loop of `getLatestDataPackagesFromDbWithSameTimestamp`:
iterates the winning group's members in order, skipping a member whose
signer already appears in its feed's sequence, otherwise pushing the built
entry. -/
def parseSameTimestampLoop (dataServiceId : String) (ts : Nat) :
    List CachedDataPackage → DataPackagesResponse → DataPackagesResponse
  | [], resp => resp
  | m :: rest, resp =>
    if isSignerAddressAlreadyInDbResponseForDataFeed m.signerAddress
        (lookupKey m.dataFeedId resp) then
      parseSameTimestampLoop dataServiceId ts rest resp
    else
      parseSameTimestampLoop dataServiceId ts rest
        (pushToFeed resp m.dataFeedId (mkCachedFromAggregated dataServiceId ts m))

/-- `getLatestDataPackagesFromDbWithSameTimestamp(dataServiceId)` over a
store `db` in document order: runs the aggregation pipeline, throws the
empty-response `HttpException` when it yields no group, otherwise parses
the single returned group into a per-feed response with signer
deduplication. -/
def getLatestDataPackagesFromDbWithSameTimestamp (db : List CachedDataPackage)
    (dataServiceId : String) (now delay : Nat) :
    Except HttpError DataPackagesResponse :=
  match aggregateSameTimestamp db dataServiceId now delay with
  | [] => .error ⟨"Data packages response is empty", .emptyDataPackageResponse⟩
  | g :: _ =>
    .ok (parseSameTimestampLoop dataServiceId g.timestampMilliseconds g.members [])

/-- A node record of the oracle registry state:
`{ evmAddress, dataServiceId, name }`. -/
structure NodeState where
  evmAddress : String
  dataServiceId : String
  name : String
deriving DecidableEq

/-- One value of the `DataPackagesStatsResponse` mapping. -/
structure DataPackagesStatsEntry where
  dataServiceId : String
  verifiedDataPackagesCount : Nat
  nodeName : String
deriving DecidableEq

/-- The `DataPackage.countDocuments` call of `getDataPackagesStats` for one
node: counts stored documents inside the window for the node's partition
and signer with a valid signature flag. -/
def countDocumentsForNode (db : List CachedDataPackage)
    (fromTimestamp toTimestamp : Int) (node : NodeState) : Nat :=
  db.countP (fun p =>
    decide (fromTimestamp ≤ (p.timestampMilliseconds : Int)) &&
    decide ((p.timestampMilliseconds : Int) ≤ toTimestamp) &&
    p.dataServiceId == node.dataServiceId &&
    p.signerAddress == node.evmAddress &&
    p.isSignatureValid)

/-- The result-building loop of `getDataPackagesStats`:
`stats[node.evmAddress] = { dataServiceId, verifiedDataPackagesCount, nodeName }`
for each node in order. -/
def statsLoop (db : List CachedDataPackage) (fromTimestamp toTimestamp : Int) :
    List NodeState → List (String × DataPackagesStatsEntry) →
    List (String × DataPackagesStatsEntry)
  | [], stats => stats
  | node :: rest, stats =>
    statsLoop db fromTimestamp toTimestamp rest
      (setKey stats node.evmAddress
        ⟨node.dataServiceId, countDocumentsForNode db fromTimestamp toTimestamp node,
          node.name⟩)

/-- `getDataPackagesStats({ fromTimestamp, toTimestamp })` over the oracle
state's node list and a store `db`: throws `BadRequestException` when the
window is wider than `7_200_000` ms, otherwise returns the per-node
verified-package counts keyed by node evm address. -/
def getDataPackagesStats (nodes : List NodeState) (db : List CachedDataPackage)
    (fromTimestamp toTimestamp : Int) :
    Except HttpError (List (String × DataPackagesStatsEntry)) :=
  if toTimestamp - fromTimestamp > 7200000 then
    .error ⟨"Too big search period. Can not be bigger than 7_200_000", .badRequest⟩
  else
    .ok (statsLoop db fromTimestamp toTimestamp nodes [])

/-- A package as submitted by a reporting node (`ReceivedDataPackage`). -/
structure ReceivedDataPackage where
  timestampMilliseconds : Nat
  signature : String
  dataPoints : List DataPoint
deriving DecidableEq

/-- Modelled from the spec: the reserved all-feeds sentinel
`consts.ALL_FEEDS_KEY` of the protocol package, which lives outside the
shown source; its exact string content is irrelevant to the claims, only
that it is the fixed reserved multi-feed id. -/
def ALL_FEEDS_KEY : String := "___ALL_FEEDS___"

/-- `isSignatureValid(receivedDataPackage, signerAddress)`.  The external
`recoverDeserializedSignerAddress` of the protocol package (outside the
shown source) is passed as an explicit recovery function that either
returns the recovered address or fails; the `try/catch` of the source
turns any recovery failure into `false`. -/
def isSignatureValid (recover : ReceivedDataPackage → Except String String)
    (receivedDataPackage : ReceivedDataPackage) (signerAddress : String) : Bool :=
  match recover receivedDataPackage with
  | .ok address => address == signerAddress
  | .error _ => false

/-- `prepareDataPackageForSaving(receivedDataPackage, signerAddress, dataServiceId)`:
spreads the received fields, stamps provenance and the signature-validity
flag, and sets `dataFeedId` to the single data point's feed id when there
is exactly one data point, otherwise to the all-feeds sentinel. -/
def prepareDataPackageForSaving (recover : ReceivedDataPackage → Except String String)
    (receivedDataPackage : ReceivedDataPackage)
    (signerAddress dataServiceId : String) : CachedDataPackage :=
  { timestampMilliseconds := receivedDataPackage.timestampMilliseconds
    signature := receivedDataPackage.signature
    isSignatureValid := isSignatureValid recover receivedDataPackage signerAddress
    dataPoints := receivedDataPackage.dataPoints
    dataServiceId := dataServiceId
    signerAddress := signerAddress
    dataFeedId :=
      match receivedDataPackage.dataPoints with
      | [d] => d.dataFeedId
      | _ => ALL_FEEDS_KEY }

/-- Modelled from the spec: the state of one key of `RedstoneCommon.memoize`
(the memoization combinator lives in the utils package, outside the shown
source).  A key is either bound to an in-flight computation that concurrent
callers join and whose eventual result they share, or to a cached value
with its absolute expiry instant. -/
inductive CacheEntry (V : Type) where
  | inFlight
  | cached (value : V) (expiresAt : Nat)
deriving DecidableEq

/-- Modelled from the spec: the whole memoization state — the key-entry
table plus a counter of underlying store computations started, used to
state the single-flight property. -/
structure MemoizeState (V : Type) where
  entries : List (String × CacheEntry V)
  storeQueries : Nat
deriving DecidableEq

/-- Modelled from the spec: what a memoized call observes — a fresh cached
value, joining (awaiting and sharing) an in-flight computation, or starting
a new underlying store query. -/
inductive RequestOutcome (V : Type) where
  | servedFromCache (value : V)
  | joinedInFlight
  | startedQuery
deriving DecidableEq

/-- Modelled from the spec: a memoized call
(`getLatestDataPackagesWithCache` or
`getLatestDataPackagesWithSameTimestampWithCache`) arriving at instant
`now` for `key`.  A live cached value is served without any store access;
an in-flight computation is joined, never duplicated; a missing or expired
entry starts exactly one new underlying computation. -/
def memoizeRequest {V : Type} (st : MemoizeState V) (key : String) (now : Nat) :
    MemoizeState V × RequestOutcome V :=
  match lookupKey key st.entries with
  | some .inFlight => (st, .joinedInFlight)
  | some (.cached v expiresAt) =>
    if now < expiresAt then (st, .servedFromCache v)
    else (⟨setKey st.entries key .inFlight, st.storeQueries + 1⟩, .startedQuery)
  | none => (⟨setKey st.entries key .inFlight, st.storeQueries + 1⟩, .startedQuery)

/-- Modelled from the spec: completion of the in-flight computation of
`key` at instant `now`.  A successful result is cached until `now + ttl`;
a failed computation is not cached — the key is cleared so the next call
retries. -/
def memoizeResolve {V : Type} (ttl : Nat) (st : MemoizeState V) (key : String)
    (result : Option V) (now : Nat) : MemoizeState V :=
  match result with
  | some v => ⟨setKey st.entries key (.cached v (now + ttl)), st.storeQueries⟩
  | none => ⟨removeKey st.entries key, st.storeQueries⟩

/-! ## Concrete stores and inputs used by witnesses and counterexamples -/

/-- An older store document, first in store order (signer `0xA`, feed `ETH`). -/
def c1pOld : CachedDataPackage := ⟨1, "sig-old", true, [⟨"ETH", "41"⟩], "svc", "ETH", "0xA"⟩

/-- A newer store document, second in store order, same signer and feed. -/
def c1pNew : CachedDataPackage := ⟨2, "sig-new", true, [⟨"ETH", "42"⟩], "svc", "ETH", "0xA"⟩

def c2p1 : CachedDataPackage := ⟨5, "s1", true, [⟨"ETH", "1"⟩], "svc", "ETH", "0xA"⟩

def c2p2 : CachedDataPackage := ⟨5, "s2", true, [⟨"BTC", "2"⟩], "svc", "BTC", "0xB"⟩

def c2p3 : CachedDataPackage := ⟨9, "s3", true, [⟨"ETH", "3"⟩], "svc", "ETH", "0xA"⟩

def c3p1 : CachedDataPackage := ⟨5, "s1", true, [⟨"ETH", "1"⟩], "svc", "ETH", "0xA"⟩

def c3p2 : CachedDataPackage := ⟨5, "s2", true, [⟨"ETH", "2"⟩], "svc", "ETH", "0xA"⟩

def c3p3 : CachedDataPackage := ⟨5, "s3", true, [⟨"ETH", "3"⟩], "svc", "ETH", "0xB"⟩

/-- A document of a different partition: not eligible for partition `svc`. -/
def c4p : CachedDataPackage := ⟨5, "s", true, [⟨"ETH", "1"⟩], "other", "ETH", "0xA"⟩

/-- An eligible document with a nonzero timestamp, used to exhibit the
behaviour of an explicit query timestamp of `0`. -/
def c6p : CachedDataPackage := ⟨1000, "s", true, [⟨"ETH", "1"⟩], "svc", "ETH", "0xA"⟩

/-- A document at exactly timestamp `7`, for the nonzero explicit-timestamp case. -/
def c6q : CachedDataPackage := ⟨7, "s7", true, [⟨"ETH", "7"⟩], "svc", "ETH", "0xB"⟩

def c7r1 : ReceivedDataPackage := ⟨123, "sig", [⟨"ETH", "42"⟩]⟩

def c7r2 : ReceivedDataPackage := ⟨123, "sig", [⟨"ETH", "42"⟩, ⟨"BTC", "9"⟩]⟩

/-- A recovery function that always succeeds with address `0xA`. -/
def c7recover : ReceivedDataPackage → Except String String := fun _ => .ok "0xA"

def c8r : ReceivedDataPackage := ⟨5, "sig", [⟨"ETH", "1"⟩]⟩

/-- A recovery function that always fails, as a malformed signature would. -/
def c8recoverFail : ReceivedDataPackage → Except String String := fun _ => .error "bad-signature"

def c10nodeA : NodeState := ⟨"0xA", "svc", "node-a"⟩

def c10nodeB : NodeState := ⟨"0xB", "svc", "node-b"⟩

def c10p : CachedDataPackage := ⟨5, "s", true, [⟨"ETH", "1"⟩], "svc", "ETH", "0xA"⟩

/-! ## Helper lemmas about the `$group`-with-`$first` stage -/

theorem firstByKeyAux_subset {A K : Type} [DecidableEq K] (key : A → K) :
    ∀ (seen : List K) (l : List A) (q : A), q ∈ firstByKeyAux key seen l → q ∈ l := by
  intro seen l
  induction l generalizing seen with
  | nil => intro q hq; simp [firstByKeyAux] at hq
  | cons a rest ih =>
    intro q hq
    by_cases ha : key a ∈ seen
    · simp only [firstByKeyAux, if_pos ha] at hq
      exact List.mem_cons_of_mem a (ih seen q hq)
    · simp only [firstByKeyAux, if_neg ha, List.mem_cons] at hq
      rcases hq with h | h
      · exact h ▸ List.mem_cons_self a rest
      · exact List.mem_cons_of_mem a (ih _ q h)

theorem firstByKeyAux_key_not_seen {A K : Type} [DecidableEq K] (key : A → K) :
    ∀ (seen : List K) (l : List A) (q : A),
      q ∈ firstByKeyAux key seen l → key q ∉ seen := by
  intro seen l
  induction l generalizing seen with
  | nil => intro q hq; simp [firstByKeyAux] at hq
  | cons a rest ih =>
    intro q hq
    by_cases ha : key a ∈ seen
    · simp only [firstByKeyAux, if_pos ha] at hq
      exact ih seen q hq
    · simp only [firstByKeyAux, if_neg ha, List.mem_cons] at hq
      rcases hq with h | h
      · exact h ▸ ha
      · intro hcon
        exact ih (key a :: seen) q h (List.mem_cons_of_mem _ hcon)

theorem firstByKeyAux_pairwise {A K : Type} [DecidableEq K] (key : A → K) :
    ∀ (seen : List K) (l : List A),
      (firstByKeyAux key seen l).Pairwise (fun a b => key a ≠ key b) := by
  intro seen l
  induction l generalizing seen with
  | nil => simp [firstByKeyAux]
  | cons a rest ih =>
    by_cases ha : key a ∈ seen
    · simpa only [firstByKeyAux, if_pos ha] using ih seen
    · simp only [firstByKeyAux, if_neg ha]
      refine List.Pairwise.cons ?_ (ih (key a :: seen))
      intro q hq hcon
      exact firstByKeyAux_key_not_seen key _ _ q hq (hcon ▸ List.mem_cons_self _ _)

theorem firstByKeyAux_find {A K : Type} [DecidableEq K] [BEq K] [LawfulBEq K] (key : A → K) :
    ∀ (seen : List K) (l : List A) (q : A),
      q ∈ firstByKeyAux key seen l →
      l.find? (fun x => key x == key q) = some q := by
  intro seen l
  induction l generalizing seen with
  | nil => intro q hq; simp [firstByKeyAux] at hq
  | cons a rest ih =>
    intro q hq
    by_cases ha : key a ∈ seen
    · simp only [firstByKeyAux, if_pos ha] at hq
      have hne : key a ≠ key q := by
        intro hcon
        exact firstByKeyAux_key_not_seen key seen rest q hq (hcon ▸ ha)
      have hbeq : (key a == key q) = false := beq_eq_false_iff_ne.mpr hne
      simp only [List.find?_cons, hbeq]
      exact ih seen q hq
    · simp only [firstByKeyAux, if_neg ha, List.mem_cons] at hq
      rcases hq with h | h
      · subst h
        simp [List.find?_cons]
      · have hkq : key q ∉ key a :: seen := firstByKeyAux_key_not_seen key _ _ q h
        have hne : key a ≠ key q := fun hcon =>
          hkq (hcon ▸ List.mem_cons_self _ _)
        have hbeq : (key a == key q) = false := beq_eq_false_iff_ne.mpr hne
        simp only [List.find?_cons, hbeq]
        exact ih (key a :: seen) q h

theorem firstByKeyAux_cover {A K : Type} [DecidableEq K] (key : A → K) :
    ∀ (seen : List K) (l : List A) (q : A), q ∈ l →
      key q ∈ seen ∨ ∃ r ∈ firstByKeyAux key seen l, key r = key q := by
  intro seen l
  induction l generalizing seen with
  | nil => intro q hq; simp at hq
  | cons a rest ih =>
    intro q hq
    rcases List.mem_cons.mp hq with h | h
    · subst h
      by_cases ha : key q ∈ seen
      · exact Or.inl ha
      · exact Or.inr ⟨q, by simp [firstByKeyAux, if_neg ha], rfl⟩
    · by_cases ha : key a ∈ seen
      · rcases ih seen q h with hs | ⟨r, hr, hkr⟩
        · exact Or.inl hs
        · exact Or.inr ⟨r, by simp only [firstByKeyAux, if_pos ha]; exact hr, hkr⟩
      · rcases ih (key a :: seen) q h with hs | ⟨r, hr, hkr⟩
        · rcases List.mem_cons.mp hs with he | hs2
          · exact Or.inr ⟨a, by simp [firstByKeyAux, if_neg ha], he.symm⟩
          · exact Or.inl hs2
        · exact Or.inr ⟨r, by
            simp only [firstByKeyAux, if_neg ha]
            exact List.mem_cons_of_mem a hr, hkr⟩

theorem firstByKey_subset {A K : Type} [DecidableEq K] (key : A → K) (l : List A)
    (q : A) (hq : q ∈ firstByKey key l) : q ∈ l :=
  firstByKeyAux_subset key [] l q hq

theorem firstByKey_pairwise {A K : Type} [DecidableEq K] (key : A → K) (l : List A) :
    (firstByKey key l).Pairwise (fun a b => key a ≠ key b) :=
  firstByKeyAux_pairwise key [] l

theorem firstByKey_find {A K : Type} [DecidableEq K] [BEq K] [LawfulBEq K] (key : A → K)
    (l : List A) (q : A) (hq : q ∈ firstByKey key l) :
    l.find? (fun x => key x == key q) = some q :=
  firstByKeyAux_find key [] l q hq

theorem firstByKey_cover {A K : Type} [DecidableEq K] (key : A → K) (l : List A)
    (q : A) (hq : q ∈ l) : ∃ r ∈ firstByKey key l, key r = key q := by
  rcases firstByKeyAux_cover key [] l q hq with hs | h
  · simp at hs
  · exact h

/-! ## Helper lemmas about response assembly -/

theorem pushToFeed_lookup (resp : DataPackagesResponse) (g f : String)
    (p : CachedDataPackage) :
    lookupKey f (pushToFeed resp g p) =
      if g = f then some ((lookupKey f resp).getD [] ++ [p])
      else lookupKey f resp := by
  induction resp with
  | nil =>
    by_cases h : g = f <;> simp [pushToFeed, lookupKey, h]
  | cons kv rest ih =>
    obtain ⟨k, l⟩ := kv
    by_cases hkg : k = g
    · subst hkg
      by_cases hkf : k = f
      · subst hkf
        simp [pushToFeed, lookupKey]
      · simp [pushToFeed, lookupKey, hkf]
    · have hstep : pushToFeed ((k, l) :: rest) g p = (k, l) :: pushToFeed rest g p := by
        simp [pushToFeed, hkg]
      rw [hstep]
      by_cases hkf : k = f
      · have hgf : ¬g = f := fun hc => hkg (hkf.trans hc.symm)
        simp [lookupKey, hkf, hgf]
      · simp [lookupKey, hkf, ih]

theorem assembleLoop_lookup (l : List CachedDataPackage) :
    ∀ (resp : DataPackagesResponse) (f : String),
      lookupKey f (assembleLoop l resp) =
        match lookupKey f resp with
        | some el => some (el ++ l.filter (fun p => p.dataFeedId == f))
        | none =>
          if l.filter (fun p => p.dataFeedId == f) = [] then none
          else some (l.filter (fun p => p.dataFeedId == f)) := by
  induction l with
  | nil =>
    intro resp f
    cases h : lookupKey f resp <;> simp [assembleLoop, h]
  | cons p rest ih =>
    intro resp f
    have hstep : assembleLoop (p :: rest) resp =
        assembleLoop rest (pushToFeed resp p.dataFeedId p) := rfl
    rw [hstep, ih, pushToFeed_lookup]
    by_cases hpf : p.dataFeedId = f
    · rw [if_pos hpf]
      have hfilter : (p :: rest).filter (fun q => q.dataFeedId == f) =
          p :: rest.filter (fun q => q.dataFeedId == f) := by
        simp [List.filter_cons, hpf]
      rw [hfilter]
      cases h : lookupKey f resp <;> simp [h]
    · rw [if_neg hpf]
      have hfilter : (p :: rest).filter (fun q => q.dataFeedId == f) =
          rest.filter (fun q => q.dataFeedId == f) := by
        simp [List.filter_cons, hpf]
      rw [hfilter]

theorem pushToFeed_ne_nil (resp : DataPackagesResponse) (f : String)
    (p : CachedDataPackage) : pushToFeed resp f p ≠ [] := by
  cases resp with
  | nil => simp [pushToFeed]
  | cons kv rest =>
    obtain ⟨k, l⟩ := kv
    by_cases h : k = f <;> simp [pushToFeed, h]

theorem assembleLoop_ne_nil (l : List CachedDataPackage) :
    ∀ resp : DataPackagesResponse, resp ≠ [] → assembleLoop l resp ≠ [] := by
  induction l with
  | nil => intro resp h; simpa [assembleLoop] using h
  | cons p rest ih =>
    intro resp h
    exact ih (pushToFeed resp p.dataFeedId p) (pushToFeed_ne_nil resp p.dataFeedId p)

theorem parseSameTimestampLoop_ne_nil (dataServiceId : String) (ts : Nat)
    (l : List CachedDataPackage) :
    ∀ resp : DataPackagesResponse, resp ≠ [] →
      parseSameTimestampLoop dataServiceId ts l resp ≠ [] := by
  induction l with
  | nil => intro resp h; simpa [parseSameTimestampLoop] using h
  | cons m rest ih =>
    intro resp h
    by_cases hc : isSignerAddressAlreadyInDbResponseForDataFeed m.signerAddress
        (lookupKey m.dataFeedId resp) = true
    · simpa [parseSameTimestampLoop, hc] using ih resp h
    · simp only [parseSameTimestampLoop, hc, if_neg, Bool.not_eq_true] at *
      simpa [hc] using
        ih (pushToFeed resp m.dataFeedId (mkCachedFromAggregated dataServiceId ts m))
          (pushToFeed_ne_nil _ _ _)

theorem take_one_eq_singleton {A : Type} (l : List A) (x : A)
    (h : List.take 1 l = [x]) : ∃ rest, l = x :: rest := by
  cases l with
  | nil => simp at h
  | cons a t =>
    refine ⟨t, ?_⟩
    have hax : a = x := by simpa using h
    rw [hax]

/-! ## Structural lemmas about strategy A -/

theorem strategyA_ok_resp (db : List CachedDataPackage) (dataServiceId : String)
    (timestamp : Option Nat) (now delay : Nat) (resp : DataPackagesResponse)
    (hok : getDataPackagesFromDbByTimestampOrLatest db dataServiceId timestamp now delay
      = .ok resp) :
    resp = assembleLoop (byTimestampOrLatestAggregate db dataServiceId timestamp now delay) [] := by
  by_cases h : (byTimestampOrLatestAggregate db dataServiceId timestamp now delay).length = 0
  · simp [getDataPackagesFromDbByTimestampOrLatest, h] at hok
  · simp only [getDataPackagesFromDbByTimestampOrLatest, if_neg h, Except.ok.injEq] at hok
    exact hok.symm

theorem strategyA_lookup_filter (db : List CachedDataPackage) (dataServiceId : String)
    (timestamp : Option Nat) (now delay : Nat) (resp : DataPackagesResponse)
    (f : String) (l : List CachedDataPackage)
    (hok : getDataPackagesFromDbByTimestampOrLatest db dataServiceId timestamp now delay
      = .ok resp)
    (hl : lookupKey f resp = some l) :
    l = (byTimestampOrLatestAggregate db dataServiceId timestamp now delay).filter
      (fun q => q.dataFeedId == f) := by
  rw [strategyA_ok_resp db dataServiceId timestamp now delay resp hok] at hl
  rw [assembleLoop_lookup] at hl
  by_cases hf : (byTimestampOrLatestAggregate db dataServiceId timestamp now delay).filter
      (fun q => q.dataFeedId == f) = []
  · simp [lookupKey, hf] at hl
  · simp only [lookupKey] at hl
    rw [if_neg hf] at hl
    exact (Option.some_inj.mp hl).symm

theorem strategyA_mem_aggregate (db : List CachedDataPackage) (dataServiceId : String)
    (timestamp : Option Nat) (now delay : Nat) (resp : DataPackagesResponse)
    (f : String) (l : List CachedDataPackage) (p : CachedDataPackage)
    (hok : getDataPackagesFromDbByTimestampOrLatest db dataServiceId timestamp now delay
      = .ok resp)
    (hl : lookupKey f resp = some l) (hp : p ∈ l) :
    p.dataFeedId = f ∧
      p ∈ firstByKey (fun q => (q.signerAddress, q.dataFeedId))
        (db.filter (matchByTimestampOrLatest dataServiceId timestamp now delay)) := by
  rw [strategyA_lookup_filter db dataServiceId timestamp now delay resp f l hok hl] at hp
  have hmem := List.mem_filter.mp hp
  refine ⟨beq_iff_eq.mp hmem.2, ?_⟩
  have := hmem.1
  rw [byTimestampOrLatestAggregate, List.mem_insertionSort] at this
  exact this

/-- C1 (corrected): the returned response of strategy A is not the
max-timestamp representative per `(signerAddress, dataFeedId)` group —
with two eligible documents for the same pair, store order
older-then-newer, the response keeps the older document even though the
newer one is eligible for the exact same pair with a strictly greater
timestamp. -/
theorem strategyA_not_max_timestamp_counterexample :
    getDataPackagesFromDbByTimestampOrLatest [c1pOld, c1pNew] "svc" none 2 2
      = .ok [("ETH", [c1pOld])]
    ∧ matchByTimestampOrLatest "svc" none 2 2 c1pNew = true
    ∧ c1pNew.signerAddress = c1pOld.signerAddress
    ∧ c1pNew.dataFeedId = "ETH"
    ∧ c1pOld.timestampMilliseconds < c1pNew.timestampMilliseconds := by
  refine ⟨by decide, by decide, by decide, by decide, by decide⟩

/-- C1 (amended): for every store, within each `(signerAddress, dataFeedId)`
group strategy A keeps the first eligible document in store order — every
returned entry is the `find?`-first eligible document for its pair, and
every eligible document's pair is represented in the response. -/
theorem strategyA_keeps_first_per_signer_feed (db : List CachedDataPackage)
    (dataServiceId : String) (timestamp : Option Nat) (now delay : Nat)
    (resp : DataPackagesResponse)
    (hok : getDataPackagesFromDbByTimestampOrLatest db dataServiceId timestamp now delay
      = .ok resp) :
    (∀ f l p, lookupKey f resp = some l → p ∈ l →
      p.dataFeedId = f ∧
        (db.filter (matchByTimestampOrLatest dataServiceId timestamp now delay)).find?
          (fun q => (q.signerAddress, q.dataFeedId) == (p.signerAddress, p.dataFeedId))
          = some p)
    ∧ (∀ q ∈ db.filter (matchByTimestampOrLatest dataServiceId timestamp now delay),
      ∃ l p, lookupKey q.dataFeedId resp = some l ∧ p ∈ l ∧
        p.signerAddress = q.signerAddress ∧ p.dataFeedId = q.dataFeedId) := by
  constructor
  · intro f l p hl hp
    obtain ⟨hf, hmem⟩ :=
      strategyA_mem_aggregate db dataServiceId timestamp now delay resp f l p hok hl hp
    exact ⟨hf, firstByKey_find (fun q => (q.signerAddress, q.dataFeedId)) _ p hmem⟩
  · intro q hq
    obtain ⟨r, hr, hkr⟩ :=
      firstByKey_cover (fun q => (q.signerAddress, q.dataFeedId)) _ q hq
    have hrs : r.signerAddress = q.signerAddress := congrArg Prod.fst hkr
    have hrf : r.dataFeedId = q.dataFeedId := congrArg Prod.snd hkr
    have hrsorted : r ∈ byTimestampOrLatestAggregate db dataServiceId timestamp now delay := by
      rw [byTimestampOrLatestAggregate, List.mem_insertionSort]
      exact hr
    have hrfilter : r ∈ (byTimestampOrLatestAggregate db dataServiceId timestamp now delay).filter
        (fun x => x.dataFeedId == q.dataFeedId) :=
      List.mem_filter.mpr ⟨hrsorted, beq_iff_eq.mpr hrf⟩
    have hne : (byTimestampOrLatestAggregate db dataServiceId timestamp now delay).filter
        (fun x => x.dataFeedId == q.dataFeedId) ≠ [] := by
      intro hcon
      rw [hcon] at hrfilter
      exact List.not_mem_nil r hrfilter
    refine ⟨(byTimestampOrLatestAggregate db dataServiceId timestamp now delay).filter
        (fun x => x.dataFeedId == q.dataFeedId), r, ?_, hrfilter, hrs, hrf⟩
    rw [strategyA_ok_resp db dataServiceId timestamp now delay resp hok, assembleLoop_lookup]
    simp only [lookupKey]
    rw [if_neg hne]

/-- Witness for the amended C1 theorem at a concrete store: the returned
entry for pair `(0xA, ETH)` is the first eligible document in store order,
and the eligible pair is represented. -/
theorem strategyA_keeps_first_per_signer_feed_witness :
    (c1pOld.dataFeedId = "ETH" ∧
      ([c1pOld, c1pNew].filter (matchByTimestampOrLatest "svc" none 2 2)).find?
        (fun q => (q.signerAddress, q.dataFeedId) == (c1pOld.signerAddress, c1pOld.dataFeedId))
        = some c1pOld)
    ∧ ∃ l p, lookupKey c1pNew.dataFeedId [("ETH", [c1pOld])] = some l ∧ p ∈ l ∧
        p.signerAddress = c1pNew.signerAddress ∧ p.dataFeedId = c1pNew.dataFeedId := by
  have h := strategyA_keeps_first_per_signer_feed [c1pOld, c1pNew] "svc" none 2 2
    [("ETH", [c1pOld])] (by decide)
  exact ⟨h.1 "ETH" [c1pOld] c1pOld (by decide) (by decide),
    h.2 c1pNew (by decide)⟩

/-! ## Claim C4: empty-response error -/

theorem groupByTimestamp_members_ne_nil (l : List CachedDataPackage)
    (g : DataPackageDocumentAggregated) (hg : g ∈ groupByTimestamp l) :
    g.members ≠ [] := by
  rw [groupByTimestamp] at hg
  obtain ⟨p, hp, hgp⟩ := List.mem_map.mp hg
  have hpl : p ∈ l := firstByKey_subset _ l p hp
  have hpf : p ∈ l.filter (fun q => q.timestampMilliseconds == p.timestampMilliseconds) :=
    List.mem_filter.mpr ⟨hpl, beq_iff_eq.mpr rfl⟩
  intro hcon
  rw [← hgp] at hcon
  simp only at hcon
  rw [hcon] at hpf
  exact List.not_mem_nil p hpf

theorem sameTimestamp_winner_mem_groups (db : List CachedDataPackage)
    (dataServiceId : String) (now delay : Nat) (g : DataPackageDocumentAggregated)
    (t : List DataPackageDocumentAggregated)
    (hagg : aggregateSameTimestamp db dataServiceId now delay = g :: t) :
    g ∈ groupByTimestamp (db.filter (matchLatestWindow dataServiceId now delay)) := by
  have hmem : g ∈ aggregateSameTimestamp db dataServiceId now delay := by
    rw [hagg]; exact List.mem_cons_self g t
  rw [aggregateSameTimestamp] at hmem
  have := List.take_subset 1 _ hmem
  rwa [List.mem_insertionSort] at this

/-- C4: a partition with no eligible stored packages in the window makes
both query strategies fail with the named empty-response error code, and a
successful response of either strategy is never the empty mapping. -/
theorem no_eligible_packages_raises_empty_response (db : List CachedDataPackage)
    (dataServiceId : String) (timestamp : Option Nat) (now delay : Nat) :
    (db.filter (matchByTimestampOrLatest dataServiceId timestamp now delay) = [] →
      getDataPackagesFromDbByTimestampOrLatest db dataServiceId timestamp now delay
        = .error ⟨"Data packages response is empty", .emptyDataPackageResponse⟩)
    ∧ (db.filter (matchLatestWindow dataServiceId now delay) = [] →
      getLatestDataPackagesFromDbWithSameTimestamp db dataServiceId now delay
        = .error ⟨"Data packages response is empty", .emptyDataPackageResponse⟩)
    ∧ (∀ resp, getDataPackagesFromDbByTimestampOrLatest db dataServiceId timestamp now delay
        = .ok resp → resp ≠ [])
    ∧ (∀ resp, getLatestDataPackagesFromDbWithSameTimestamp db dataServiceId now delay
        = .ok resp → resp ≠ []) := by
  refine ⟨?_, ?_, ?_, ?_⟩
  · intro h
    have hagg : byTimestampOrLatestAggregate db dataServiceId timestamp now delay = [] := by
      rw [byTimestampOrLatestAggregate, h]; rfl
    simp [getDataPackagesFromDbByTimestampOrLatest, hagg]
  · intro h
    have hagg : aggregateSameTimestamp db dataServiceId now delay = [] := by
      rw [aggregateSameTimestamp, h]; rfl
    simp [getLatestDataPackagesFromDbWithSameTimestamp, hagg]
  · intro resp hok
    have hresp := strategyA_ok_resp db dataServiceId timestamp now delay resp hok
    by_cases h : (byTimestampOrLatestAggregate db dataServiceId timestamp now delay).length = 0
    · simp [getDataPackagesFromDbByTimestampOrLatest, h] at hok
    · cases hs : byTimestampOrLatestAggregate db dataServiceId timestamp now delay with
      | nil => rw [hs] at h; simp at h
      | cons a t =>
        rw [hs] at hresp
        have : assembleLoop (a :: t) [] = assembleLoop t (pushToFeed [] a.dataFeedId a) := rfl
        rw [hresp, this]
        exact assembleLoop_ne_nil t _ (pushToFeed_ne_nil [] a.dataFeedId a)
  · intro resp hok
    cases hagg : aggregateSameTimestamp db dataServiceId now delay with
    | nil => simp [getLatestDataPackagesFromDbWithSameTimestamp, hagg] at hok
    | cons g t =>
      simp only [getLatestDataPackagesFromDbWithSameTimestamp, hagg, Except.ok.injEq] at hok
      have hgmem := sameTimestamp_winner_mem_groups db dataServiceId now delay g t hagg
      have hne := groupByTimestamp_members_ne_nil _ g hgmem
      cases hm : g.members with
      | nil => exact absurd hm hne
      | cons m ms =>
        rw [← hok, hm]
        have hstep : parseSameTimestampLoop dataServiceId g.timestampMilliseconds (m :: ms) []
            = parseSameTimestampLoop dataServiceId g.timestampMilliseconds ms
              (pushToFeed [] m.dataFeedId
                (mkCachedFromAggregated dataServiceId g.timestampMilliseconds m)) := by
          simp [parseSameTimestampLoop, lookupKey, isSignerAddressAlreadyInDbResponseForDataFeed]
        rw [hstep]
        exact parseSameTimestampLoop_ne_nil dataServiceId g.timestampMilliseconds ms _
          (pushToFeed_ne_nil [] m.dataFeedId _)

/-- Witness for the C4 theorem: a store holding only a document of another
partition has no eligible package for partition `svc`, and both strategies
raise the empty-response error there. -/
theorem no_eligible_packages_raises_empty_response_witness :
    getDataPackagesFromDbByTimestampOrLatest [c4p] "svc" none 5 5
      = .error ⟨"Data packages response is empty", .emptyDataPackageResponse⟩
    ∧ getLatestDataPackagesFromDbWithSameTimestamp [c4p] "svc" 5 5
      = .error ⟨"Data packages response is empty", .emptyDataPackageResponse⟩ := by
  have h := no_eligible_packages_raises_empty_response [c4p] "svc" none 5 5
  exact ⟨h.1 (by decide), h.2.1 (by decide)⟩

/-! ## Claim C6: eligibility window (corrected) -/

/-- C6 (corrected): an explicit query timestamp of `0` is treated as
absent by the JavaScript truthiness check — the query with timestamp `0`
returns a package whose timestamp is `1000`, not `0`, because the filter
falls back to the staleness window. -/
theorem explicit_zero_timestamp_counterexample :
    getDataPackagesFromDbByTimestampOrLatest [c6p] "svc" (some 0) 1000 100
      = .ok [("ETH", [c6p])]
    ∧ c6p.timestampMilliseconds ≠ 0 :=
  ⟨by decide, by decide⟩

/-- C6 (amended): an explicit nonzero timestamp makes exactly the
partition's packages at that very millisecond eligible, and every returned
entry then carries that timestamp; an absent timestamp — or the explicit
timestamp `0`, which JavaScript truthiness treats as absent — makes
exactly the partition's packages with timestamp at least
`now - maxAllowedTimestampDelay` eligible, and every returned entry then
lies inside that window. -/
theorem eligibility_exact_or_window (db : List CachedDataPackage)
    (dataServiceId : String) (t : Nat) (now delay : Nat) :
    (getDataPackagesFromDbByTimestampOrLatest db dataServiceId (some 0) now delay
      = getDataPackagesFromDbByTimestampOrLatest db dataServiceId none now delay)
    ∧ (∀ p, matchByTimestampOrLatest dataServiceId none now delay p
        = (p.dataServiceId == dataServiceId &&
            decide (now - delay ≤ p.timestampMilliseconds)))
    ∧ (t ≠ 0 → ∀ p, matchByTimestampOrLatest dataServiceId (some t) now delay p
        = (p.dataServiceId == dataServiceId && p.timestampMilliseconds == t))
    ∧ (t ≠ 0 → ∀ resp f l p,
        getDataPackagesFromDbByTimestampOrLatest db dataServiceId (some t) now delay
          = .ok resp →
        lookupKey f resp = some l → p ∈ l →
        p.timestampMilliseconds = t ∧ p.dataServiceId = dataServiceId)
    ∧ (∀ resp f l p,
        getDataPackagesFromDbByTimestampOrLatest db dataServiceId none now delay
          = .ok resp →
        lookupKey f resp = some l → p ∈ l →
        now - delay ≤ p.timestampMilliseconds ∧ p.dataServiceId = dataServiceId) := by
  have hfn : matchByTimestampOrLatest dataServiceId (some 0) now delay
      = matchByTimestampOrLatest dataServiceId none now delay := by
    funext p
    simp [matchByTimestampOrLatest, matchTimestampFilter]
  refine ⟨?_, ?_, ?_, ?_, ?_⟩
  · simp [getDataPackagesFromDbByTimestampOrLatest, byTimestampOrLatestAggregate, hfn]
  · intro p; rfl
  · intro ht p
    simp [matchByTimestampOrLatest, matchTimestampFilter, ht]
  · intro ht resp f l p hok hl hp
    obtain ⟨-, hmem⟩ :=
      strategyA_mem_aggregate db dataServiceId (some t) now delay resp f l p hok hl hp
    have hpm := firstByKey_subset _ _ p hmem
    have hmatch := (List.mem_filter.mp hpm).2
    simp only [matchByTimestampOrLatest, matchTimestampFilter, ht, if_true, ne_eq,
      not_false_iff, if_pos, Bool.and_eq_true, beq_iff_eq] at hmatch
    exact ⟨hmatch.2, hmatch.1⟩
  · intro resp f l p hok hl hp
    obtain ⟨-, hmem⟩ :=
      strategyA_mem_aggregate db dataServiceId none now delay resp f l p hok hl hp
    have hpm := firstByKey_subset _ _ p hmem
    have hmatch := (List.mem_filter.mp hpm).2
    simp only [matchByTimestampOrLatest, matchTimestampFilter, Bool.and_eq_true,
      beq_iff_eq, decide_eq_true_eq] at hmatch
    exact ⟨hmatch.2, hmatch.1⟩

/-- Witness for the amended C6 theorem: querying with explicit timestamp
`7` returns exactly the document at timestamp `7` of the partition. -/
theorem eligibility_exact_or_window_witness :
    c6q.timestampMilliseconds = 7 ∧ c6q.dataServiceId = "svc" := by
  have h := eligibility_exact_or_window [c6p, c6q] "svc" 7 0 0
  exact h.2.2.2.1 (by decide) [("ETH", [c6q])] "ETH" [c6q] c6q (by decide) (by decide)
    (by decide)

/-! ## Claim C2: strategy B picks the best-supported timestamp group -/

theorem aggregateSameTimestamp_tail_nil (db : List CachedDataPackage)
    (dataServiceId : String) (now delay : Nat) (g : DataPackageDocumentAggregated)
    (t : List DataPackageDocumentAggregated)
    (hagg : aggregateSameTimestamp db dataServiceId now delay = g :: t) : t = [] := by
  rw [aggregateSameTimestamp] at hagg
  cases hs : List.insertionSort countTsDescOrder
      (groupByTimestamp (db.filter (matchLatestWindow dataServiceId now delay))) with
  | nil => rw [hs] at hagg; simp at hagg
  | cons a s =>
    rw [hs] at hagg
    simp only [List.take_succ_cons, List.take_zero] at hagg
    exact (List.cons.injEq a [] g t).mp hagg |>.2.symm

/-- C2: the single timestamp group returned by strategy B has member count
at least that of every other exact-timestamp group within the window, and
a group matching its count cannot have a larger timestamp — equal counts
are broken in favour of the more recent timestamp. -/
theorem sameTimestamp_winner_max (db : List CachedDataPackage) (dataServiceId : String)
    (now delay : Nat) (g : DataPackageDocumentAggregated)
    (hagg : aggregateSameTimestamp db dataServiceId now delay = [g]) :
    (getLatestDataPackagesFromDbWithSameTimestamp db dataServiceId now delay
      = .ok (parseSameTimestampLoop dataServiceId g.timestampMilliseconds g.members []))
    ∧ ∀ g' ∈ groupByTimestamp (db.filter (matchLatestWindow dataServiceId now delay)),
        g'.count ≤ g.count ∧
          (g'.count = g.count → g'.timestampMilliseconds ≤ g.timestampMilliseconds) := by
  constructor
  · simp [getLatestDataPackagesFromDbWithSameTimestamp, hagg]
  · intro g' hg'
    have hsorted := List.sorted_insertionSort countTsDescOrder
      (groupByTimestamp (db.filter (matchLatestWindow dataServiceId now delay)))
    have hmem : g' ∈ List.insertionSort countTsDescOrder
        (groupByTimestamp (db.filter (matchLatestWindow dataServiceId now delay))) :=
      (List.mem_insertionSort countTsDescOrder).mpr hg'
    rw [aggregateSameTimestamp] at hagg
    obtain ⟨rest, hrest⟩ := take_one_eq_singleton _ g hagg
    rw [hrest] at hmem hsorted
    rcases List.mem_cons.mp hmem with heq | htail
    · subst heq
      exact ⟨Nat.le_refl _, fun _ => Nat.le_refl _⟩
    · have hrel : countTsDescOrder g g' := List.rel_of_sorted_cons hsorted g' htail
      rcases hrel with hlt | ⟨hceq, hts⟩
      · exact ⟨Nat.le_of_lt hlt, fun hcon => absurd hcon (by
          unfold DataPackageDocumentAggregated.count; omega)⟩
      · exact ⟨Nat.le_of_eq hceq.symm, fun _ => hts⟩

/-- Witness for the C2 theorem: with a two-member group at timestamp 5 and
a one-member group at timestamp 9, the two-member group wins and the
one-member group's count is dominated. -/
theorem sameTimestamp_winner_max_witness :
    (⟨9, [c2p3]⟩ : DataPackageDocumentAggregated).count
      ≤ (⟨5, [c2p1, c2p2]⟩ : DataPackageDocumentAggregated).count
    ∧ ((⟨9, [c2p3]⟩ : DataPackageDocumentAggregated).count
        = (⟨5, [c2p1, c2p2]⟩ : DataPackageDocumentAggregated).count →
      (9 : Nat) ≤ 5) := by
  have h := sameTimestamp_winner_max [c2p1, c2p2, c2p3] "svc" 9 9 ⟨5, [c2p1, c2p2]⟩
    (by decide)
  exact h.2 ⟨9, [c2p3]⟩ (by decide)

/-! ## Claim C3: signer deduplication -/

theorem find?_append_some {A : Type} (p : A → Bool) (l1 l2 : List A) (x : A)
    (h : l1.find? p = some x) : (l1 ++ l2).find? p = some x := by
  rw [List.find?_append, h]
  rfl

theorem find?_append_none_left {A : Type} (p : A → Bool) (l1 l2 : List A)
    (h : l1.find? p = none) : (l1 ++ l2).find? p = l2.find? p := by
  rw [List.find?_append, h]
  rfl

theorem parseLoop_invariant (dataServiceId : String) (ts : Nat) :
    ∀ (rest pre : List CachedDataPackage) (resp : DataPackagesResponse),
      (∀ f l, lookupKey f resp = some l →
        l.Pairwise (fun a b => a.signerAddress ≠ b.signerAddress)) →
      (∀ f l p, lookupKey f resp = some l → p ∈ l →
        p.dataFeedId = f ∧
        ∃ m, pre.find? (fun x => x.signerAddress == p.signerAddress && x.dataFeedId == f)
            = some m ∧ p = mkCachedFromAggregated dataServiceId ts m) →
      (∀ m ∈ pre, isSignerAddressAlreadyInDbResponseForDataFeed m.signerAddress
          (lookupKey m.dataFeedId resp) = true) →
      ∀ f l, lookupKey f (parseSameTimestampLoop dataServiceId ts rest resp) = some l →
        l.Pairwise (fun a b => a.signerAddress ≠ b.signerAddress)
        ∧ ∀ p ∈ l, p.dataFeedId = f ∧
          ∃ m, (pre ++ rest).find?
              (fun x => x.signerAddress == p.signerAddress && x.dataFeedId == f)
              = some m ∧ p = mkCachedFromAggregated dataServiceId ts m := by
  intro rest
  induction rest with
  | nil =>
    intro pre resp h1 h2 h3 f l hl
    simp only [parseSameTimestampLoop] at hl
    rw [List.append_nil]
    exact ⟨h1 f l hl, fun p hp => h2 f l p hl hp⟩
  | cons m rest ih =>
    intro pre resp h1 h2 h3 f l hl
    have hassoc : pre ++ m :: rest = (pre ++ [m]) ++ rest := by
      rw [List.append_assoc]
      rfl
    rw [hassoc]
    by_cases hc : isSignerAddressAlreadyInDbResponseForDataFeed m.signerAddress
        (lookupKey m.dataFeedId resp) = true
    · rw [parseSameTimestampLoop, if_pos hc] at hl
      refine ih (pre ++ [m]) resp h1 ?_ ?_ f l hl
      · intro f0 l0 p0 hl0 hp0
        obtain ⟨hf0, m0, hm0, hpm0⟩ := h2 f0 l0 p0 hl0 hp0
        exact ⟨hf0, m0, find?_append_some _ pre [m] m0 hm0, hpm0⟩
      · intro m0 hm0
        rcases List.mem_append.mp hm0 with h | h
        · exact h3 m0 h
        · have : m0 = m := by simpa using h
          rw [this]
          exact hc
    · rw [parseSameTimestampLoop, if_neg hc] at hl
      have hcf : isSignerAddressAlreadyInDbResponseForDataFeed m.signerAddress
          (lookupKey m.dataFeedId resp) = false := by
        exact Bool.not_eq_true _ ▸ eq_false_of_ne_true hc
      refine ih (pre ++ [m])
        (pushToFeed resp m.dataFeedId (mkCachedFromAggregated dataServiceId ts m))
        ?_ ?_ ?_ f l hl
      · -- pairwise distinct signers preserved by the guarded push
        intro f0 l0 hl0
        rw [pushToFeed_lookup] at hl0
        by_cases hmf : m.dataFeedId = f0
        · rw [if_pos hmf, Option.some_inj] at hl0
          cases hold : lookupKey f0 resp with
          | none =>
            rw [hold] at hl0
            simp only [Option.getD_none, List.nil_append] at hl0
            rw [← hl0]
            exact List.pairwise_singleton _ _
          | some old =>
            rw [hold] at hl0
            simp only [Option.getD_some] at hl0
            rw [← hl0]
            rw [List.pairwise_append]
            refine ⟨h1 f0 old hold, List.pairwise_singleton _ _, ?_⟩
            intro a ha b hb
            have hbe : b = mkCachedFromAggregated dataServiceId ts m := by simpa using hb
            rw [hbe]
            rw [hmf, hold] at hcf
            simp only [isSignerAddressAlreadyInDbResponseForDataFeed] at hcf
            have hnone := List.any_eq_false.mp hcf a ha
            intro hcon
            exact hnone (by
              show (a.signerAddress == m.signerAddress) = true
              exact beq_iff_eq.mpr hcon)
        · rw [if_neg hmf] at hl0
          exact h1 f0 l0 hl0
      · -- every entry is the first member of the processed part for its pair
        intro f0 l0 p0 hl0 hp0
        rw [pushToFeed_lookup] at hl0
        by_cases hmf : m.dataFeedId = f0
        · rw [if_pos hmf, Option.some_inj] at hl0
          rw [← hl0] at hp0
          rcases List.mem_append.mp hp0 with hpold | hpe
          · cases hold : lookupKey f0 resp with
            | none =>
              rw [hold] at hpold
              simp at hpold
            | some old =>
              rw [hold] at hpold
              simp only [Option.getD_some] at hpold
              obtain ⟨hf0, m0, hm0, hpm0⟩ := h2 f0 old p0 hold hpold
              exact ⟨hf0, m0, find?_append_some _ pre [m] m0 hm0, hpm0⟩
          · have hpe2 : p0 = mkCachedFromAggregated dataServiceId ts m := by simpa using hpe
            refine ⟨by rw [hpe2]; exact hmf, m, ?_, hpe2⟩
            have hprenone : pre.find?
                (fun x => x.signerAddress == p0.signerAddress && x.dataFeedId == f0)
                = none := by
              rw [List.find?_eq_none]
              intro x hx hpx
              rw [Bool.and_eq_true] at hpx
              have hxs : x.signerAddress = p0.signerAddress := beq_iff_eq.mp hpx.1
              have hxf : x.dataFeedId = f0 := beq_iff_eq.mp hpx.2
              have := h3 x hx
              rw [hxs, hxf, hpe2] at this
              show False
              rw [mkCachedFromAggregated] at this
              simp only at this
              rw [← hmf] at this
              rw [this] at hcf
              exact Bool.true_eq_false.mp hcf
            rw [find?_append_none_left _ pre [m] hprenone]
            have hpred : (m.signerAddress == p0.signerAddress
                && m.dataFeedId == f0) = true := by
              rw [hpe2]
              simp [mkCachedFromAggregated, hmf]
            simp only [List.find?_cons, hpred]
        · rw [if_neg hmf] at hl0
          obtain ⟨hf0, m0, hm0, hpm0⟩ := h2 f0 l0 p0 hl0 hp0
          exact ⟨hf0, m0, find?_append_some _ pre [m] m0 hm0, hpm0⟩
      · -- every processed member's signer is recorded for its feed
        intro m0 hm0
        rcases List.mem_append.mp hm0 with hmp | hmm
        · have hprev := h3 m0 hmp
          rw [pushToFeed_lookup]
          by_cases hmf : m.dataFeedId = m0.dataFeedId
          · rw [if_pos hmf]
            cases hold : lookupKey m0.dataFeedId resp with
            | none =>
              rw [hold] at hprev
              simp [isSignerAddressAlreadyInDbResponseForDataFeed] at hprev
            | some old =>
              rw [hold] at hprev
              rw [isSignerAddressAlreadyInDbResponseForDataFeed] at hprev
              rw [isSignerAddressAlreadyInDbResponseForDataFeed]
              simp only [Option.getD_some]
              rw [List.any_append]
              rw [hprev]
              rfl
          · rw [if_neg hmf]
            exact hprev
        · have hmeq : m0 = m := by simpa using hmm
          rw [hmeq, pushToFeed_lookup, if_pos rfl]
          rw [isSignerAddressAlreadyInDbResponseForDataFeed]
          rw [List.any_append]
          have : ((mkCachedFromAggregated dataServiceId ts m).signerAddress
              == m.signerAddress) = true := by
            simp [mkCachedFromAggregated]
          simp [this]

/-- C3: in every response of either query strategy, no two entries of one
feed's sequence share a signer address; and in strategy B every entry is
built from the first member of the winning timestamp group (in group
order) carrying its `(signerAddress, dataFeedId)` pair, so later
duplicates are discarded. -/
theorem responses_dedupe_signers_per_feed (db : List CachedDataPackage)
    (dataServiceId : String) (timestamp : Option Nat) (now delay : Nat)
    (respA respB : DataPackagesResponse) (f : String) (l : List CachedDataPackage) :
    (getDataPackagesFromDbByTimestampOrLatest db dataServiceId timestamp now delay
        = .ok respA →
      lookupKey f respA = some l →
      l.Pairwise (fun a b => a.signerAddress ≠ b.signerAddress))
    ∧ (getLatestDataPackagesFromDbWithSameTimestamp db dataServiceId now delay
        = .ok respB →
      lookupKey f respB = some l →
      l.Pairwise (fun a b => a.signerAddress ≠ b.signerAddress)
      ∧ ∀ p ∈ l, ∃ g m, aggregateSameTimestamp db dataServiceId now delay = [g]
          ∧ g.members.find?
              (fun x => x.signerAddress == p.signerAddress && x.dataFeedId == f)
              = some m
          ∧ p = mkCachedFromAggregated dataServiceId g.timestampMilliseconds m) := by
  constructor
  · intro hok hl
    have hflt := strategyA_lookup_filter db dataServiceId timestamp now delay respA f l hok hl
    have hpwg := firstByKey_pairwise (fun q => (q.signerAddress, q.dataFeedId))
      (db.filter (matchByTimestampOrLatest dataServiceId timestamp now delay))
    have hsym : Symmetric (fun a b : CachedDataPackage =>
        (a.signerAddress, a.dataFeedId) ≠ (b.signerAddress, b.dataFeedId)) :=
      fun _ _ h hc => h hc.symm
    have hperm := List.perm_insertionSort tsDescOrder
      (firstByKey (fun q => (q.signerAddress, q.dataFeedId))
        (db.filter (matchByTimestampOrLatest dataServiceId timestamp now delay)))
    have hpws : (byTimestampOrLatestAggregate db dataServiceId timestamp now delay).Pairwise
        (fun a b => (a.signerAddress, a.dataFeedId) ≠ (b.signerAddress, b.dataFeedId)) := by
      rw [byTimestampOrLatestAggregate]
      exact (hperm.pairwise_iff (fun hab => hsym hab)).mpr hpwg
    have hpwl : l.Pairwise
        (fun a b => (a.signerAddress, a.dataFeedId) ≠ (b.signerAddress, b.dataFeedId)) := by
      rw [hflt]
      exact hpws.sublist (List.filter_sublist _)
    refine List.Pairwise.imp_of_mem ?_ hpwl
    intro a b ha hb hr hcon
    have haf : a.dataFeedId = f := by
      rw [hflt] at ha
      exact beq_iff_eq.mp (List.mem_filter.mp ha).2
    have hbf : b.dataFeedId = f := by
      rw [hflt] at hb
      exact beq_iff_eq.mp (List.mem_filter.mp hb).2
    exact hr (by rw [hcon, haf, hbf])
  · intro hok hl
    cases hagg : aggregateSameTimestamp db dataServiceId now delay with
    | nil => simp [getLatestDataPackagesFromDbWithSameTimestamp, hagg] at hok
    | cons g t =>
      have ht := aggregateSameTimestamp_tail_nil db dataServiceId now delay g t hagg
      subst ht
      simp only [getLatestDataPackagesFromDbWithSameTimestamp, hagg, Except.ok.injEq] at hok
      rw [← hok] at hl
      have hinv := parseLoop_invariant dataServiceId g.timestampMilliseconds g.members [] []
        (by intro f0 l0 h0; simp [lookupKey] at h0)
        (by intro f0 l0 p0 h0 hp0; simp [lookupKey] at h0)
        (by intro m0 hm0; simp at hm0)
        f l hl
      refine ⟨hinv.1, ?_⟩
      intro p hp
      obtain ⟨hf, m, hm, hpm⟩ := hinv.2 p hp
      rw [List.nil_append] at hm
      exact ⟨g, m, rfl, hm, hpm⟩

/-- Witness for the C3 theorem: with two same-signer members and one
other-signer member in the winning group, both strategies return the feed
sequence `[c3p1, c3p3]` with pairwise distinct signers, and the kept entry
for signer `0xA` is the first matching group member. -/
theorem responses_dedupe_signers_per_feed_witness :
    [c3p1, c3p3].Pairwise (fun a b => a.signerAddress ≠ b.signerAddress)
    ∧ ∃ g m, aggregateSameTimestamp [c3p1, c3p2, c3p3] "svc" 5 5 = [g]
        ∧ g.members.find?
            (fun x => x.signerAddress == c3p1.signerAddress && x.dataFeedId == "ETH")
            = some m
        ∧ c3p1 = mkCachedFromAggregated "svc" g.timestampMilliseconds m := by
  have h := responses_dedupe_signers_per_feed [c3p1, c3p2, c3p3] "svc" none 5 5
    [("ETH", [c3p1, c3p3])] [("ETH", [c3p1, c3p3])] "ETH" [c3p1, c3p3]
  exact ⟨h.1 (by decide) (by decide),
    (h.2 (by decide) (by decide)).2 c3p1 (by decide)⟩

/-! ## Claim C9: stats window bound -/

/-- C9: `getDataPackagesStats` raises the bad-request validation error iff
the window is strictly wider than 7,200,000 ms; in particular a window of
7,200,001 ms is rejected and a window of 7,200,000 ms is accepted. -/
theorem stats_window_bound (nodes : List NodeState) (db : List CachedDataPackage)
    (fromTimestamp toTimestamp : Int) :
    (getDataPackagesStats nodes db fromTimestamp toTimestamp
        = .error ⟨"Too big search period. Can not be bigger than 7_200_000", .badRequest⟩
      ↔ toTimestamp - fromTimestamp > 7200000)
    ∧ getDataPackagesStats nodes db 0 7200001
        = .error ⟨"Too big search period. Can not be bigger than 7_200_000", .badRequest⟩
    ∧ getDataPackagesStats nodes db 0 7200000
        = .ok (statsLoop db 0 7200000 nodes []) := by
  refine ⟨⟨?_, ?_⟩, ?_, ?_⟩
  · intro h
    by_contra hc
    rw [getDataPackagesStats, if_neg hc] at h
    cases h
  · intro h
    rw [getDataPackagesStats, if_pos h]
  · rw [getDataPackagesStats, if_pos (by norm_num)]
  · rw [getDataPackagesStats, if_neg (by norm_num)]

/-! ## Claim C10: one stats entry per node -/

theorem setKey_fresh {V : Type} (l : List (String × V)) (k : String) (v : V)
    (h : ∀ x ∈ l, x.1 ≠ k) : setKey l k v = l ++ [(k, v)] := by
  induction l with
  | nil => rfl
  | cons kv rest ih =>
    obtain ⟨k1, v1⟩ := kv
    have hk1 : k1 ≠ k := h (k1, v1) (List.mem_cons_self _ _)
    simp only [setKey, if_neg hk1, List.cons_append, List.cons.injEq, true_and]
    exact ih (fun x hx => h x (List.mem_cons_of_mem _ hx))

theorem statsLoop_map (db : List CachedDataPackage) (fromTimestamp toTimestamp : Int) :
    ∀ (nodes : List NodeState) (stats : List (String × DataPackagesStatsEntry)),
      nodes.Pairwise (fun a b => a.evmAddress ≠ b.evmAddress) →
      (∀ n ∈ nodes, ∀ x ∈ stats, x.1 ≠ n.evmAddress) →
      statsLoop db fromTimestamp toTimestamp nodes stats
        = stats ++ nodes.map (fun n => (n.evmAddress,
            ⟨n.dataServiceId, countDocumentsForNode db fromTimestamp toTimestamp n,
              n.name⟩)) := by
  intro nodes
  induction nodes with
  | nil => intro stats _ _; simp [statsLoop]
  | cons n rest ih =>
    intro stats hpw hfresh
    have hset : setKey stats n.evmAddress
        ⟨n.dataServiceId, countDocumentsForNode db fromTimestamp toTimestamp n, n.name⟩
        = stats ++ [(n.evmAddress,
            ⟨n.dataServiceId, countDocumentsForNode db fromTimestamp toTimestamp n, n.name⟩)] :=
      setKey_fresh stats n.evmAddress _
        (fun x hx => hfresh n (List.mem_cons_self n rest) x hx)
    have hpw2 := List.pairwise_cons.mp hpw
    rw [statsLoop, hset, ih _ hpw2.2 ?_]
    · rw [List.append_assoc]
      rfl
    · intro m hm x hx
      rcases List.mem_append.mp hx with hxs | hxn
      · exact hfresh m (List.mem_cons_of_mem n hm) x hxs
      · have hx1 : x.1 = n.evmAddress := by
          rw [List.mem_singleton.mp hxn]
        rw [hx1]
        exact hpw2.1 m hm

theorem lookupKey_map_nodes (eA : NodeState → DataPackagesStatsEntry) :
    ∀ (nodes : List NodeState),
      nodes.Pairwise (fun a b => a.evmAddress ≠ b.evmAddress) →
      ∀ n ∈ nodes,
        lookupKey n.evmAddress (nodes.map (fun m => (m.evmAddress, eA m))) = some (eA n) := by
  intro nodes
  induction nodes with
  | nil => intro _ n hn; simp at hn
  | cons n0 rest ih =>
    intro hpw n hn
    have hpw2 := List.pairwise_cons.mp hpw
    rcases List.mem_cons.mp hn with heq | htl
    · subst heq
      simp [lookupKey]
    · have hne : n0.evmAddress ≠ n.evmAddress := hpw2.1 n htl
      simp only [List.map_cons, lookupKey, if_neg hne]
      exact ih hpw2.2 n htl

/-- C10: when the oracle state's nodes have pairwise-distinct evm
addresses and the window is accepted, the stats response is exactly one
entry per node, keyed by its evm address and carrying its data-service id,
its verified-package count (possibly zero) and its name — no other keys
appear. -/
theorem stats_one_entry_per_node (nodes : List NodeState) (db : List CachedDataPackage)
    (fromTimestamp toTimestamp : Int)
    (hd : nodes.Pairwise (fun a b => a.evmAddress ≠ b.evmAddress))
    (hw : toTimestamp - fromTimestamp ≤ 7200000) :
    getDataPackagesStats nodes db fromTimestamp toTimestamp
      = .ok (nodes.map (fun n => (n.evmAddress,
          ⟨n.dataServiceId, countDocumentsForNode db fromTimestamp toTimestamp n, n.name⟩)))
    ∧ ∀ n ∈ nodes,
        lookupKey n.evmAddress (nodes.map (fun m => (m.evmAddress,
          (⟨m.dataServiceId, countDocumentsForNode db fromTimestamp toTimestamp m, m.name⟩ :
            DataPackagesStatsEntry))))
          = some ⟨n.dataServiceId, countDocumentsForNode db fromTimestamp toTimestamp n,
              n.name⟩ := by
  constructor
  · rw [getDataPackagesStats, if_neg (by omega)]
    rw [statsLoop_map db fromTimestamp toTimestamp nodes [] hd (by intro n _ x hx; simp at hx)]
    rw [List.nil_append]
  · exact lookupKey_map_nodes _ nodes hd

/-- Witness for the C10 theorem: node `0xB` has zero matching verified
packages yet still appears in the stats mapping with count zero. -/
theorem stats_one_entry_per_node_witness :
    lookupKey c10nodeB.evmAddress
        ([c10nodeA, c10nodeB].map (fun m => (m.evmAddress,
          (⟨m.dataServiceId, countDocumentsForNode [c10p] 0 7200000 m, m.name⟩ :
            DataPackagesStatsEntry))))
      = some ⟨c10nodeB.dataServiceId, countDocumentsForNode [c10p] 0 7200000 c10nodeB,
          c10nodeB.name⟩ := by
  exact (stats_one_entry_per_node [c10nodeA, c10nodeB] [c10p] 0 7200000 (by decide)
    (by decide)).2 c10nodeB (by decide)

/-! ## Claim C7: normalization of the feed id -/

/-- C7: a received package with exactly one data point is saved with that
data point's feed id; any other number of data points yields the reserved
all-feeds sentinel. -/
theorem prepare_sets_feed_id (recover : ReceivedDataPackage → Except String String)
    (rp : ReceivedDataPackage) (signerAddress dataServiceId : String) :
    (∀ d, rp.dataPoints = [d] →
      (prepareDataPackageForSaving recover rp signerAddress dataServiceId).dataFeedId
        = d.dataFeedId)
    ∧ (rp.dataPoints.length ≠ 1 →
      (prepareDataPackageForSaving recover rp signerAddress dataServiceId).dataFeedId
        = ALL_FEEDS_KEY) := by
  constructor
  · intro d hd
    simp [prepareDataPackageForSaving, hd]
  · intro h
    cases hdp : rp.dataPoints with
    | nil => simp [prepareDataPackageForSaving, hdp]
    | cons d restd =>
      cases restd with
      | nil => rw [hdp] at h; simp at h
      | cons d2 rest2 => simp [prepareDataPackageForSaving, hdp]

/-- Witness for the C7 theorem: a one-point package keeps its point's feed
id, a two-point package gets the sentinel. -/
theorem prepare_sets_feed_id_witness :
    (prepareDataPackageForSaving c7recover c7r1 "0xA" "svc").dataFeedId = "ETH"
    ∧ (prepareDataPackageForSaving c7recover c7r2 "0xA" "svc").dataFeedId
        = ALL_FEEDS_KEY := by
  exact ⟨(prepare_sets_feed_id c7recover c7r1 "0xA" "svc").1 ⟨"ETH", "42"⟩ (by decide),
    (prepare_sets_feed_id c7recover c7r2 "0xA" "svc").2 (by decide)⟩

/-! ## Claim C8: signature verification totality -/

/-- C8: `isSignatureValid` is true exactly when recovery succeeds with the
claimed signer address, is false (it is a total function, never raising)
whenever recovery fails, and the flag — true or false — is recorded on the
saved package whose other provenance fields are still populated, so a bad
signature does not block ingestion. -/
theorem signature_validity_total (recover : ReceivedDataPackage → Except String String)
    (rp : ReceivedDataPackage) (signerAddress dataServiceId : String) :
    (isSignatureValid recover rp signerAddress = true ↔ recover rp = .ok signerAddress)
    ∧ (∀ e, recover rp = .error e → isSignatureValid recover rp signerAddress = false)
    ∧ (prepareDataPackageForSaving recover rp signerAddress dataServiceId).isSignatureValid
        = isSignatureValid recover rp signerAddress
    ∧ (prepareDataPackageForSaving recover rp signerAddress dataServiceId).signerAddress
        = signerAddress
    ∧ (prepareDataPackageForSaving recover rp signerAddress dataServiceId).signature
        = rp.signature := by
  refine ⟨?_, ?_, rfl, rfl, rfl⟩
  · cases hr : recover rp with
    | ok a => simp [isSignatureValid, hr]
    | error e => simp [isSignatureValid, hr]
  · intro e he
    simp [isSignatureValid, he]

/-- Witness for the C8 theorem: a failing recovery makes the flag false. -/
theorem signature_validity_total_witness :
    isSignatureValid c8recoverFail c8r "0xA" = false := by
  exact (signature_validity_total c8recoverFail c8r "0xA" "svc").2.1 "bad-signature" rfl

/-! ## Claim C5: cache single-flight and TTL -/

/-- C5: on the memoization model, a first call for a key starts exactly
one underlying store query; a second call arriving while that computation
is in flight joins it (the query counter does not move, the caller awaits
and shares the same outcome); after a successful resolution the value is
served from cache without a store query until the ttl elapses, after which
a call starts a new query; a failed computation is not cached — the key is
cleared and the next call starts a new query. -/
theorem memoize_single_flight_and_ttl (V : Type) (ttl : Nat) (key : String)
    (t1 t2 t3 t4 t5 : Nat) (v : V)
    (h4 : t4 < t3 + ttl) (h5 : t3 + ttl ≤ t5) :
    ((memoizeRequest (⟨[], 0⟩ : MemoizeState V) key t1).2 = .startedQuery
      ∧ (memoizeRequest (⟨[], 0⟩ : MemoizeState V) key t1).1.storeQueries = 1)
    ∧ ((memoizeRequest (memoizeRequest (⟨[], 0⟩ : MemoizeState V) key t1).1 key t2).2
        = .joinedInFlight
      ∧ (memoizeRequest (memoizeRequest (⟨[], 0⟩ : MemoizeState V) key t1).1 key
          t2).1.storeQueries = 1)
    ∧ ((memoizeRequest (memoizeResolve ttl
          (memoizeRequest (⟨[], 0⟩ : MemoizeState V) key t1).1 key (some v) t3) key t4).2
        = .servedFromCache v
      ∧ (memoizeRequest (memoizeResolve ttl
          (memoizeRequest (⟨[], 0⟩ : MemoizeState V) key t1).1 key (some v) t3) key
          t4).1.storeQueries = 1)
    ∧ ((memoizeRequest (memoizeResolve ttl
          (memoizeRequest (⟨[], 0⟩ : MemoizeState V) key t1).1 key (some v) t3) key t5).2
        = .startedQuery
      ∧ (memoizeRequest (memoizeResolve ttl
          (memoizeRequest (⟨[], 0⟩ : MemoizeState V) key t1).1 key (some v) t3) key
          t5).1.storeQueries = 2)
    ∧ ((memoizeResolve ttl (memoizeRequest (⟨[], 0⟩ : MemoizeState V) key t1).1 key
          none t3).entries = []
      ∧ (memoizeRequest (memoizeResolve ttl
          (memoizeRequest (⟨[], 0⟩ : MemoizeState V) key t1).1 key none t3) key t4).2
        = .startedQuery) := by
  have h5n : ¬t5 < t3 + ttl := by omega
  have e1 : memoizeRequest (⟨[], 0⟩ : MemoizeState V) key t1
      = (⟨[(key, .inFlight)], 1⟩, .startedQuery) := by
    simp [memoizeRequest, lookupKey, setKey]
  have e2 : memoizeRequest (⟨[(key, CacheEntry.inFlight)], 1⟩ : MemoizeState V) key t2
      = (⟨[(key, .inFlight)], 1⟩, .joinedInFlight) := by
    simp [memoizeRequest, lookupKey]
  have e3 : memoizeResolve ttl (⟨[(key, CacheEntry.inFlight)], 1⟩ : MemoizeState V) key
      (some v) t3 = ⟨[(key, .cached v (t3 + ttl))], 1⟩ := by
    simp [memoizeResolve, setKey]
  have e4 : memoizeRequest (⟨[(key, CacheEntry.cached v (t3 + ttl))], 1⟩ : MemoizeState V)
      key t4 = (⟨[(key, .cached v (t3 + ttl))], 1⟩, .servedFromCache v) := by
    simp [memoizeRequest, lookupKey, h4]
  have e5 : memoizeRequest (⟨[(key, CacheEntry.cached v (t3 + ttl))], 1⟩ : MemoizeState V)
      key t5 = (⟨[(key, .inFlight)], 2⟩, .startedQuery) := by
    simp [memoizeRequest, lookupKey, setKey, h5n]
  have e6 : memoizeResolve ttl (⟨[(key, CacheEntry.inFlight)], 1⟩ : MemoizeState V) key
      none t3 = ⟨[], 1⟩ := by
    simp [memoizeResolve, removeKey]
  have e7 : memoizeRequest (⟨[], 1⟩ : MemoizeState V) key t4
      = (⟨[(key, .inFlight)], 2⟩, .startedQuery) := by
    simp [memoizeRequest, lookupKey, setKey]
  rw [e1]
  simp [e2, e3, e4, e5, e6, e7]

/-- Witness for the C5 theorem at concrete instants: the second concurrent
call joins the single in-flight computation, and a call after the ttl has
elapsed starts the second store query. -/
theorem memoize_single_flight_and_ttl_witness :
    (memoizeRequest (memoizeRequest (⟨[], 0⟩ : MemoizeState Nat) "svc" 0).1 "svc" 1).2
      = RequestOutcome.joinedInFlight
    ∧ (memoizeRequest (memoizeResolve 10
        (memoizeRequest (⟨[], 0⟩ : MemoizeState Nat) "svc" 0).1 "svc" (some 42) 3) "svc"
        13).1.storeQueries = 2 := by
  have h := memoize_single_flight_and_ttl Nat 10 "svc" 0 1 3 12 13 42 (by decide) (by decide)
  exact ⟨h.2.1.1, h.2.2.2.1.2⟩
